import Mathlib

/-!
Verification of the `funcall` crate (src/lib.rs): a dynamic FFI call
builder.  A `Func` value holds a target code address, a queue of
machine-word arguments (`args`), a queue of 64-bit float arguments
(`fargs`), and three raw return slots.  `push` classifies a primitive
argument and appends its machine-word representation(s); the per-ABI
trampolines (`cdecl` on i386 and x86-64 Linux, `stdcall` on i386) load
registers, push stack words, call the target and capture the return
registers.

Modelling conventions:
* machine words, bytes and float values are `Nat` bit patterns
  (the crate supports little-endian hosts only, and all of its
  reinterpretations are bit-level);
* the machine word width is a parameter `w` in *bytes* (4 on i386,
  8 on x86-64), matching the `cfg!(target_arch = "x86_64")` tests;
* memory reads performed by the trampolines are modelled by
  `memRead`, which yields `none` for an out-of-bounds index;
* fallible paths (`unreachable!` in `push`, the OS loader in
  `Func::new`) are modelled with `Option` / `Except`.
-/

/-- The little-endian byte image of a value that occupies `n` bytes:
byte 0 is the least significant.  This models how a value sits in
memory on the (little-endian) hosts the crate supports. -/
def leBytes : Nat → Nat → List Nat
  | 0, _ => []
  | n + 1, b => b % 256 :: leBytes n (b / 256)

/-- Reassemble a little-endian byte list into an unsigned integer;
models `transmute_copy` to `u8`/`u16`/`u32`/`u64` followed by `as usize`
(a zero-extension). -/
def wordOfLeBytes : List Nat → Nat
  | [] => 0
  | b :: bs => b + 256 * wordOfLeBytes bs

/-- Read `k` consecutive machine words of `w` bytes each from a byte
image; models `std::slice::from_raw_parts(&arg as *const usize, k)` on a
little-endian host (src/lib.rs line 119). -/
def readWords (w : Nat) : Nat → List Nat → List Nat
  | 0, _ => []
  | k + 1, bs => wordOfLeBytes (bs.take w) :: readWords w k (bs.drop w)

/-- Bit pattern of `f64::from(x : f32)`: the exact IEEE 754 widening
conversion on bit patterns (sign copied, exponent re-biased from 127 to
1023, significand shifted up by 29 bits; subnormals are normalised,
NaN payloads are shifted and quieted). -/
def f32ToF64Bits (bits : Nat) : Nat :=
  let b := bits % 2 ^ 32
  let s := b / 2 ^ 31
  let e := b / 2 ^ 23 % 2 ^ 8
  let m := b % 2 ^ 23
  if e = 255 then
    if m = 0 then s * 2 ^ 63 + 2047 * 2 ^ 52
    else s * 2 ^ 63 + 2047 * 2 ^ 52 + (2 ^ 51 + m * 2 ^ 29 % 2 ^ 51)
  else if e = 0 then
    if m = 0 then s * 2 ^ 63
    else s * 2 ^ 63 + (Nat.log2 m + 874) * 2 ^ 52 + m * 2 ^ (52 - Nat.log2 m) % 2 ^ 52
  else s * 2 ^ 63 + (e + 896) * 2 ^ 52 + m * 2 ^ 29

/-- The invocation builder (struct `Func`, src/lib.rs lines 40-54).
`func` is the target code address; `args` is the general-purpose word
queue; `fargs` holds the bit patterns of the (up to eight) float
arguments passed in XMM registers on x86-64; `ret_low`, `ret_high` and
`ret_float` are the captured return registers. -/
structure Func where
  func : Nat
  args : List Nat
  fargs : List Nat
  ret_low : Nat
  ret_high : Nat
  ret_float : Nat
  deriving DecidableEq, Repr

/-- `Func::from_raw` (src/lib.rs lines 75-84): wrap a raw code address,
no validation, fresh queues and zeroed return slots. -/
def Func.from_raw (ptr : Nat) : Func :=
  { func := ptr, args := [], fargs := [], ret_low := 0, ret_high := 0, ret_float := 0 }

/-- I/O-category errors surfaced by the loader (`std::io::Error`). -/
def IoError := String

/-- A loaded library handle, owned by the external loader collaborator
(`libloading::Library`). -/
structure Library where
  handle : Nat

/-- `Func::new` (src/lib.rs lines 58-72).  The loader collaborator is
external to the crate, so it enters the model as two parameters: the
outcome of `Library::new` and the outcome of `Library::get` on the
opened library.  The `?` operator propagates either failure; on success
the resolved symbol address becomes the target of a fresh builder. -/
def Func.new (openLib : Except IoError Library)
    (getSym : Library → Except IoError Nat) : Except IoError Func :=
  match openLib with
  | .error e => .error e
  | .ok lib =>
    match getSym lib with
    | .error e => .error e
    | .ok addr =>
      .ok { func := addr, args := [], fargs := [], ret_low := 0, ret_high := 0,
            ret_float := 0 }

/-- A type-erased argument as `Func::push` sees it after
`transmute_copy`: its Rust type collapses to a float marker (`f32` /
`f64`) or a byte size, together with the raw bit pattern.  Pointers and
`isize`/`usize` enter as `int w bits`. -/
inductive Arg where
  | f32 (bits : Nat)
  | f64 (bits : Nat)
  | int (size : Nat) (bits : Nat)
  deriving DecidableEq, Repr

/-- `TypeId` check: is this argument an `f32` or an `f64`? -/
def Arg.isFloat : Arg → Bool
  | .f32 _ => true
  | .f64 _ => true
  | .int _ _ => false

/-- `mem::size_of::<T>()` in bytes. -/
def Arg.size : Arg → Nat
  | .f32 _ => 4
  | .f64 _ => 8
  | .int s _ => s

/-- The raw bit pattern of the argument. -/
def Arg.bits : Arg → Nat
  | .f32 b => b
  | .f64 b => b
  | .int _ b => b

/-- Measure justifying the one recursive call in `Func.push`
(`f32` is first widened to `f64`, then pushed again). -/
def Arg.rank : Arg → Nat
  | .f32 _ => 1
  | _ => 0

/-- `Func::push` (src/lib.rs lines 87-123), parametric in the machine
word width `w` (bytes).  Branches, in source order:
1. on x86-64 (`w = 8`), while `fargs.len() != 8`, a float is widened to
   `f64` and appended to `fargs`;
2. otherwise an `f32` is widened to `f64` and pushed recursively;
3. a value of at most word size is reinterpreted as an unsigned integer
   of its own width via its byte image (sizes 1, 2, 4, 8 are the only
   match arms; anything else hits `unreachable!`, modelled as `none`),
   zero-extended and appended to `args`;
4. a wider value is split into `size / w` machine words read from its
   little-endian byte image and appended in order. -/
def Func.push (w : Nat) (f : Func) (a : Arg) : Option Func :=
  if w = 8 ∧ f.fargs.length ≠ 8 ∧ a.isFloat = true then
    match a with
    | .f32 b => some { f with fargs := f.fargs ++ [f32ToF64Bits b] }
    | .f64 b => some { f with fargs := f.fargs ++ [b] }
    | .int _ _ => none
  else
    match a with
    | .f32 b => Func.push w f (.f64 (f32ToF64Bits b))
    | a =>
      if a.size ≤ w then
        if a.size = 1 ∨ a.size = 2 ∨ a.size = 4 ∨ a.size = 8 then
          some { f with args := f.args ++ [wordOfLeBytes (leBytes a.size a.bits)] }
        else none
      else
        some { f with args := f.args ++ readWords w (a.size / w) (leBytes a.size a.bits) }
termination_by a.rank
decreasing_by simp [Arg.rank]

/-- Fold `Func.push` over a list of arguments (a sequence of `push`
calls on the same builder). -/
def Func.pushMany (w : Nat) : Func → List Arg → Option Func
  | f, [] => some f
  | f, a :: rest =>
    match Func.push w f a with
    | none => none
    | some f' => Func.pushMany w f' rest

/-- `Func::ret_usize` (src/lib.rs lines 334-336): the raw low return
register. -/
def Func.ret_usize (f : Func) : Nat := f.ret_low

/-- `Func::ret_f64` (src/lib.rs lines 330-332): the raw float return
register. -/
def Func.ret_f64 (f : Func) : Nat := f.ret_float

/-- The return accessors that `impl Func` in src/lib.rs actually
declares, in source order. -/
def Func.returnAccessors : List String := ["ret_f64", "ret_usize"]

/-- Two's-complement reading of the low `width` bits of a pattern:
how a signed accessor reinterprets a captured register. -/
def asSigned (width : Nat) (v : Nat) : Int :=
  if v % 2 ^ width < 2 ^ (width - 1) then ((v % 2 ^ width : Nat) : Int)
  else ((v % 2 ^ width : Nat) : Int) - 2 ^ width

/-- Bit pattern of `x as f32` for `x : f64`: IEEE 754 narrowing
conversion (round to nearest, ties to even; overflow to infinity,
underflow to subnormals or zero; NaN payload truncated and quieted). -/
def f64ToF32Bits (bits : Nat) : Nat :=
  let b : Nat := bits % 2 ^ 64
  let s : Nat := b / 2 ^ 63
  let e : Nat := b / 2 ^ 52 % 2 ^ 11
  let m : Nat := b % 2 ^ 52
  if e = 2047 then
    if m = 0 then s * 2 ^ 31 + 255 * 2 ^ 23
    else s * 2 ^ 31 + 255 * 2 ^ 23 + (2 ^ 22 + m / 2 ^ 29 % 2 ^ 22)
  else
    let et : Int := (e : Int) - 896
    if 255 ≤ et then s * 2 ^ 31 + 255 * 2 ^ 23
    else if 1 ≤ et then
      let q := m / 2 ^ 29
      let r := m % 2 ^ 29
      let up := if 2 ^ 28 < r ∨ (r = 2 ^ 28 ∧ q % 2 = 1) then 1 else 0
      if q + up = 2 ^ 23 then
        if 254 ≤ et then s * 2 ^ 31 + 255 * 2 ^ 23
        else s * 2 ^ 31 + (et + 1).toNat * 2 ^ 23
      else s * 2 ^ 31 + et.toNat * 2 ^ 23 + (q + up)
    else
      let sh := (1 - et).toNat + 29
      if 54 ≤ sh then s * 2 ^ 31
      else
        let sig := if e = 0 then m else 2 ^ 52 + m
        let q := sig / 2 ^ sh
        let r := sig % 2 ^ sh
        let up := if 2 ^ (sh - 1) < r ∨ (r = 2 ^ (sh - 1) ∧ q % 2 = 1) then 1 else 0
        s * 2 ^ 31 + (q + up)

/-- Modelled from the spec: the typed return-accessor family
`ret_as_i8/u8/i16/u16/i32/u32` (§4.5 "any int ≤ word: truncate
`ret_lo` to requested width") is exercised by tests/tests.rs but its
definition is missing from src/src/lib.rs.  `ret_as_uN` truncates
`ret_lo` to `N` bits; `ret_as_iN` additionally reads the result as
two's complement. -/
def Func.ret_as_u8 (f : Func) : Nat := f.ret_low % 2 ^ 8

/-- Modelled from the spec: see `Func.ret_as_u8`. -/
def Func.ret_as_i8 (f : Func) : Int := asSigned 8 f.ret_low

/-- Modelled from the spec: see `Func.ret_as_u8`. -/
def Func.ret_as_u16 (f : Func) : Nat := f.ret_low % 2 ^ 16

/-- Modelled from the spec: see `Func.ret_as_u8`. -/
def Func.ret_as_i16 (f : Func) : Int := asSigned 16 f.ret_low

/-- Modelled from the spec: see `Func.ret_as_u8`. -/
def Func.ret_as_u32 (f : Func) : Nat := f.ret_low % 2 ^ 32

/-- Modelled from the spec: see `Func.ret_as_u8`. -/
def Func.ret_as_i32 (f : Func) : Int := asSigned 32 f.ret_low

/-- Modelled from the spec: `ret_as_u64` (missing from src/src/lib.rs,
called by tests/tests.rs).  §4.5: on a 64-bit host `ret_lo` is the
64-bit result; on a 32-bit host the register pair is combined as
`(ret_hi << 32) ∨ ret_lo`. -/
def Func.ret_as_u64 (w : Nat) (f : Func) : Nat :=
  if w = 8 then f.ret_low else Nat.lor (f.ret_high <<< 32) f.ret_low

/-- Modelled from the spec: see `Func.ret_as_u64`. -/
def Func.ret_as_i64 (w : Nat) (f : Func) : Int := asSigned 64 (f.ret_as_u64 w)

/-- Modelled from the spec: `ret_as_u128` (missing from src/src/lib.rs,
called by tests/tests.rs).  §4.5: on a 64-bit host combine `RAX:RDX` as
`(ret_hi << 64) ∨ ret_lo`; on a 32-bit host the accessor is
unsupported and fails deterministically (§7), modelled as `none`. -/
def Func.ret_as_u128 (w : Nat) (f : Func) : Option Nat :=
  if w = 8 then some (Nat.lor (f.ret_high <<< 64) f.ret_low) else none

/-- Modelled from the spec: see `Func.ret_as_u128`. -/
def Func.ret_as_i128 (w : Nat) (f : Func) : Option Int :=
  (f.ret_as_u128 w).map (asSigned 128)

/-- Modelled from the spec: `ret_as_usize` (missing from
src/src/lib.rs, called by tests/tests.rs; src has `ret_usize` with the
same body).  §4.5 / §6: the host-word-width unsigned accessor returns
`ret_lo` directly. -/
def Func.ret_as_usize (f : Func) : Nat := f.ret_low

/-- Modelled from the spec: `ret_as_isize` (missing from
src/src/lib.rs, called by tests/tests.rs): `ret_lo` read as a signed
machine word of `8·w` bits. -/
def Func.ret_as_isize (w : Nat) (f : Func) : Int := asSigned (8 * w) f.ret_low

/-- Modelled from the spec: `ret_as_f64` (missing from src/src/lib.rs,
called by tests/tests.rs; src has `ret_f64` with the same body).
§4.5: the 64-bit float accessor returns `ret_fp` directly. -/
def Func.ret_as_f64 (f : Func) : Nat := f.ret_float

/-- Modelled from the spec: `ret_as_f32` (missing from src/src/lib.rs,
called by tests/tests.rs).  §4.5: narrowing IEEE 754 conversion of
`ret_fp`. -/
def Func.ret_as_f32 (f : Func) : Nat := f64ToF32Bits f.ret_float

/-- A word read from a trampoline input pointer: `none` marks an
out-of-bounds access (index below or beyond the queue). -/
def memRead (words : List Nat) (i : Int) : Option Nat :=
  if i < 0 then none else words[i.toNat]?

/-- The argument-push loop shared verbatim by the i386 `cdecl` and
`stdcall` trampolines (src/lib.rs lines 142-149 and 312-319):

    mov  ebx, $len
    dec  ebx
  .L:
    push dword ptr [$args]
    sub  $args, 4
    dec  ebx
    jns  .L

The pointer starts at queue index `len - 1` and tracks `ebx`, so the
state is the single signed index `ebx`; the body runs once before the
first `jns` test (a do-while loop). -/
def x86PushLoopGo (words : List Nat) (ebx : Int) : List (Option Nat) :=
  memRead words ebx :: (if 0 ≤ ebx - 1 then x86PushLoopGo words (ebx - 1) else [])
termination_by ebx.toNat
decreasing_by omega

/-- Outcome of an i386 trampoline: the stack words pushed (in push
order, i.e. rightmost argument first), the called address, and the
amount added to `esp` after the call. -/
structure TrampX86 where
  stackWords : List (Option Nat)
  target : Nat
  espRestore : Nat
  deriving DecidableEq, Repr

/-- The i386 `cdecl` trampoline (src/lib.rs lines 128-162): run the
push loop starting at index `len - 1`, call the target, then add
`4 * len` to `esp`. -/
def Func.cdeclX86 (f : Func) : TrampX86 :=
  { stackWords := x86PushLoopGo f.args ((f.args.length : Int) - 1),
    target := f.func,
    espRestore := 4 * f.args.length }

/-- The i386 `stdcall` trampoline (src/lib.rs lines 298-328): the same
push loop and call, with no stack-pointer restoration. -/
def Func.stdcallX86 (f : Func) : TrampX86 :=
  { stackWords := x86PushLoopGo f.args ((f.args.length : Int) - 1),
    target := f.func,
    espRestore := 0 }

/-- Return capture of the i386 `cdecl` trampoline (src/lib.rs lines
158-160): `eax → ret_low`, `edx → ret_high`, `st(0) → ret_float`. -/
def Func.cdeclX86Ret (f : Func) (eax edx st0 : Nat) : Func :=
  { f with ret_low := eax, ret_high := edx, ret_float := st0 }

/-- Return capture of the i386 `stdcall` trampoline (src/lib.rs lines
324-326): `eax → ret_low`, `edx → ret_high`, `st(0) → ret_float`. -/
def Func.stdcallX86Ret (f : Func) (eax edx st0 : Nat) : Func :=
  { f with ret_low := eax, ret_high := edx, ret_float := st0 }

/-- The float-register staircase of the x86-64 trampoline (src/lib.rs
lines 191-231).  The jump table indexed by `flen` enters the staircase
at label `.LARG flen`; label `.LARG (k+1)` loads `xmm k` from the
current pointer and decrements the pointer by one slot.  Called with
`k = flen` and pointer index `p = flen - 1`; yields the `(xmm index,
loaded word)` pairs in execution order. -/
def fpStaircaseGo (words : List Nat) : Nat → Int → List (Nat × Option Nat)
  | 0, _ => []
  | k + 1, p => (k, memRead words p) :: fpStaircaseGo words k (p - 1)

/-- The six System V integer-argument registers, in ABI order. -/
inductive GpReg where
  | rdi | rsi | rdx | rcx | r8 | r9
  deriving DecidableEq, Repr

/-- Register holding integer argument `i` (0-based): `RDI, RSI, RDX,
RCX, R8, R9`. -/
def gpRegOf : Nat → GpReg
  | 0 => .rdi
  | 1 => .rsi
  | 2 => .rdx
  | 3 => .rcx
  | 4 => .r8
  | _ => .r9

/-- The stack-spill loop of the x86-64 trampoline (src/lib.rs lines
234-242):

    xor r12, r12
  .LPUSH:
    cmp $len, 6
    jbe .LPUSH_F6
    push qword ptr [$args]
    sub $args, 8
    inc r12
    dec $len
    jmp .LPUSH

Called with the remaining count `len` and the pointer index `p`
(initially `len - 1`); yields the pushed words in push order, the final
`r12` (number of pushes), the final `$len` and the final pointer
index. -/
def x64PushLoopGo (words : List Nat) : Nat → Int → List (Option Nat) × Nat × Nat × Int
  | 0, p => ([], 0, 0, p)
  | len + 1, p =>
    if len + 1 ≤ 6 then ([], 0, len + 1, p)
    else
      let r := x64PushLoopGo words len (p - 1)
      (memRead words p :: r.1, r.2.1 + 1, r.2.2.1, r.2.2.2)

/-- The integer-register staircase of the x86-64 trampoline (src/lib.rs
lines 244-276).  The jump table is indexed by the post-loop `$len`
(that is, `min 6 gp_queue.length`); label `.L (k+1)` loads register
`gpRegOf k` (`.L6 → r9`, …, `.L1 → rdi`) from the current pointer and
decrements the pointer.  Yields `(register, loaded word)` pairs in
execution order. -/
def gpStaircaseGo (words : List Nat) : Nat → Int → List (GpReg × Option Nat)
  | 0, _ => []
  | k + 1, p => (gpRegOf k, memRead words p) :: gpStaircaseGo words k (p - 1)

/-- Outcome of the x86-64 System V trampoline: XMM loads in execution
order, stack words in push order, integer-register loads in execution
order, bytes reclaimed from the stack after the call, and the called
address. -/
structure TrampX64 where
  xmmLoads : List (Nat × Option Nat)
  stackWords : List (Option Nat)
  gpLoads : List (GpReg × Option Nat)
  spReclaim : Nat
  target : Nat
  deriving DecidableEq, Repr

/-- The x86-64 System V `cdecl` trampoline (src/lib.rs lines 166-293):
float staircase entered at `flen` with pointer `fargs + 8*(flen-1)`;
stack-spill loop entered at `len` with pointer `args + 8*(len-1)`;
integer staircase entered at the post-loop `$len` and pointer; call;
then, if `r12 ≠ 0`, add `8 * r12` to `rsp`. -/
def Func.cdeclX64 (f : Func) : TrampX64 :=
  let r := x64PushLoopGo f.args f.args.length ((f.args.length : Int) - 1)
  { xmmLoads := fpStaircaseGo f.fargs f.fargs.length ((f.fargs.length : Int) - 1),
    stackWords := r.1,
    gpLoads := gpStaircaseGo f.args r.2.2.1 r.2.2.2,
    spReclaim := if r.2.1 = 0 then 0 else 8 * r.2.1,
    target := f.func }

/-- Return capture of the x86-64 trampoline (src/lib.rs lines 289-291):
`rax → ret_low`, `rdx → ret_high`, `xmm0 → ret_float`. -/
def Func.cdeclX64Ret (f : Func) (rax rdx xmm0 : Nat) : Func :=
  { f with ret_low := rax, ret_high := rdx, ret_float := xmm0 }

/-- Is the argument an `f32`?  (Used to separate the widen-first rule
from the direct paths.) -/
def Arg.isF32 : Arg → Bool
  | .f32 _ => true
  | _ => false

/-- Concrete sample state for exercising the x86-64 trampoline model:
eight integer arguments and two float arguments. -/
def sampleX64 : Func :=
  { func := 7, args := [1, 2, 3, 4, 5, 6, 7, 8], fargs := [11, 12],
    ret_low := 0, ret_high := 0, ret_float := 0 }

/-- Concrete state reached by pushing the byte `5` into
`Func::from_raw(3)`. -/
def frameSample : Func :=
  { func := 3, args := [5], fargs := [], ret_low := 0, ret_high := 0, ret_float := 0 }

theorem leBytes_length (n b : Nat) : (leBytes n b).length = n := by
  induction n generalizing b with
  | zero => rfl
  | succ n ih => simp [leBytes, ih]

theorem wordOfLeBytes_leBytes (n b : Nat) :
    wordOfLeBytes (leBytes n b) = b % 256 ^ n := by
  induction n generalizing b with
  | zero => simp [leBytes, wordOfLeBytes, Nat.mod_one]
  | succ n ih =>
    rw [leBytes, wordOfLeBytes, ih, pow_succ, mul_comm (256 ^ n) 256, Nat.mod_mul]

theorem leBytes_add (m n b : Nat) :
    leBytes (m + n) b = leBytes m b ++ leBytes n (b / 256 ^ m) := by
  induction m generalizing b with
  | zero => simp [leBytes]
  | succ m ih =>
    rw [Nat.succ_add, leBytes, leBytes, ih, List.cons_append,
      Nat.div_div_eq_div_mul, ← pow_succ']

theorem readWords_leBytes (w k : Nat) :
    ∀ b : Nat, readWords w k (leBytes (k * w) b) =
      (List.range k).map (fun i => b / 256 ^ (w * i) % 256 ^ w) := by
  induction k with
  | zero => intro b; simp [readWords]
  | succ k ih =>
    intro b
    have hsplit : leBytes ((k + 1) * w) b
        = leBytes w b ++ leBytes (k * w) (b / 256 ^ w) := by
      rw [Nat.succ_mul, Nat.add_comm, leBytes_add]
    have hlen : (leBytes w b).length = w := leBytes_length w b
    rw [hsplit, readWords, List.take_left' hlen, List.drop_left' hlen, ih (b / 256 ^ w),
      List.range_succ_eq_map, List.map_cons, List.map_map, wordOfLeBytes_leBytes,
      Nat.mul_zero, pow_zero, Nat.div_one]
    congr 1
    apply List.map_congr_left
    intro i _
    have hpow : 256 ^ w * 256 ^ (w * i) = 256 ^ (w * (i + 1)) := by
      rw [← pow_add, Nat.mul_succ, Nat.add_comm]
    simp only [Function.comp_apply]
    rw [Nat.div_div_eq_div_mul, hpow]

theorem two_pow_eight_mul (n : Nat) : (2 : Nat) ^ (8 * n) = 256 ^ n := by
  rw [pow_mul]; norm_num

theorem push_int_eq (w : Nat) (f : Func) (s b : Nat) :
    Func.push w f (.int s b) =
      if s ≤ w then
        if s = 1 ∨ s = 2 ∨ s = 4 ∨ s = 8 then
          some { f with args := f.args ++ [wordOfLeBytes (leBytes s b)] }
        else none
      else some { f with args := f.args ++ readWords w (s / w) (leBytes s b) } := by
  unfold Func.push
  simp [Arg.isFloat, Arg.size, Arg.bits]

theorem push_f64_eq (w : Nat) (f : Func) (b : Nat) :
    Func.push w f (.f64 b) =
      if w = 8 ∧ f.fargs.length ≠ 8 then some { f with fargs := f.fargs ++ [b] }
      else if 8 ≤ w then some { f with args := f.args ++ [wordOfLeBytes (leBytes 8 b)] }
      else some { f with args := f.args ++ readWords w (8 / w) (leBytes 8 b) } := by
  unfold Func.push
  by_cases h : w = 8 ∧ f.fargs.length ≠ 8
  · simp [Arg.isFloat, h]
  · simp [Arg.isFloat, Arg.size, Arg.bits, h]

theorem push_f32_eq (w : Nat) (f : Func) (b : Nat) :
    Func.push w f (.f32 b) =
      if w = 8 ∧ f.fargs.length ≠ 8 then
        some { f with fargs := f.fargs ++ [f32ToF64Bits b] }
      else Func.push w f (.f64 (f32ToF64Bits b)) := by
  rw [Func.push]
  by_cases h : w = 8 ∧ f.fargs.length ≠ 8
  · simp [Arg.isFloat, h]
  · simp [Arg.isFloat, h]

theorem push_cases_int (w : Nat) (f : Func) (s b : Nat) (g : Func)
    (h : Func.push w f (.int s b) = some g) :
    (∃ x, g = { f with fargs := f.fargs ++ [x] } ∧ f.fargs.length ≠ 8) ∨
    (∃ t, g = { f with args := f.args ++ t }) := by
  rw [push_int_eq] at h
  split_ifs at h with h1 h2
  · exact Or.inr ⟨_, (Option.some_injective _ h).symm⟩
  · exact Or.inr ⟨_, (Option.some_injective _ h).symm⟩

theorem push_cases_f64 (w : Nat) (f : Func) (b : Nat) (g : Func)
    (h : Func.push w f (.f64 b) = some g) :
    (∃ x, g = { f with fargs := f.fargs ++ [x] } ∧ f.fargs.length ≠ 8) ∨
    (∃ t, g = { f with args := f.args ++ t }) := by
  rw [push_f64_eq] at h
  split_ifs at h with h1 h2
  · exact Or.inl ⟨b, (Option.some_injective _ h).symm, h1.2⟩
  · exact Or.inr ⟨_, (Option.some_injective _ h).symm⟩
  · exact Or.inr ⟨_, (Option.some_injective _ h).symm⟩

theorem push_cases (w : Nat) (f : Func) (a : Arg) (g : Func)
    (h : Func.push w f a = some g) :
    (∃ x, g = { f with fargs := f.fargs ++ [x] } ∧ f.fargs.length ≠ 8) ∨
    (∃ t, g = { f with args := f.args ++ t }) := by
  cases a with
  | f32 b =>
    rw [push_f32_eq] at h
    split_ifs at h with h1
    · exact Or.inl ⟨_, (Option.some_injective _ h).symm, h1.2⟩
    · exact push_cases_f64 w f _ g h
  | f64 b => exact push_cases_f64 w f b g h
  | int s b => exact push_cases_int w f s b g h

theorem push_fargs_le (w : Nat) (f : Func) (a : Arg) (g : Func)
    (hf : f.fargs.length ≤ 8) (h : Func.push w f a = some g) :
    g.fargs.length ≤ 8 := by
  rcases push_cases w f a g h with ⟨x, rfl, hne⟩ | ⟨t, rfl⟩
  · simp only [List.length_append, List.length_cons, List.length_nil]
    omega
  · exact hf

theorem pushMany_fargs_le (w : Nat) :
    ∀ (l : List Arg) (f g : Func), f.fargs.length ≤ 8 →
      Func.pushMany w f l = some g → g.fargs.length ≤ 8 := by
  intro l
  induction l with
  | nil =>
    intro f g hf h
    simp only [Func.pushMany] at h
    exact (Option.some_injective _ h) ▸ hf
  | cons a rest ih =>
    intro f g hf h
    simp only [Func.pushMany] at h
    cases hp : Func.push w f a with
    | none => rw [hp] at h; exact absurd h (by simp)
    | some f' =>
      rw [hp] at h
      exact ih f' g (push_fargs_le w f a f' hf hp) h

theorem f32ToF64Bits_lt (b : Nat) : f32ToF64Bits b < 2 ^ 64 := by
  unfold f32ToF64Bits
  dsimp only
  have hb : b % 2 ^ 32 < 2 ^ 32 := Nat.mod_lt _ (by norm_num)
  have hs : b % 2 ^ 32 / 2 ^ 31 ≤ 1 := by omega
  have hm : b % 2 ^ 32 % 2 ^ 23 < 2 ^ 23 := Nat.mod_lt _ (by norm_num)
  have he : b % 2 ^ 32 / 2 ^ 23 % 2 ^ 8 < 2 ^ 8 := Nat.mod_lt _ (by norm_num)
  split_ifs with h1 h2 h3 h4
  · omega
  · have : b % 2 ^ 32 % 2 ^ 23 * 2 ^ 29 % 2 ^ 51 < 2 ^ 51 := Nat.mod_lt _ (by norm_num)
    omega
  · omega
  · have hlog : Nat.log2 (b % 2 ^ 32 % 2 ^ 23) ≤ 22 := by
      have := (Nat.log2_lt h4).mpr hm
      omega
    have : b % 2 ^ 32 % 2 ^ 23 * 2 ^ (52 - Nat.log2 (b % 2 ^ 32 % 2 ^ 23)) % 2 ^ 52
        < 2 ^ 52 := Nat.mod_lt _ (by norm_num)
    omega
  · omega

theorem memRead_natCast (l : List Nat) (n : Nat) : memRead l (n : Int) = l[n]? := by
  rw [memRead, if_neg (by omega), Int.toNat_natCast]

theorem fpStaircaseGo_eq (words : List Nat) :
    ∀ k : Nat, fpStaircaseGo words k ((k : Int) - 1) =
      ((List.range k).reverse).map (fun i => (i, words[i]?)) := by
  intro k
  induction k with
  | zero => simp [fpStaircaseGo]
  | succ k ih =>
    have h1 : ((k + 1 : Nat) : Int) - 1 = (k : Int) := by push_cast; ring
    rw [h1]
    show (k, memRead words (k : Int)) :: fpStaircaseGo words k ((k : Int) - 1) = _
    rw [memRead_natCast, ih, List.range_succ]
    simp

theorem gpStaircaseGo_eq (words : List Nat) :
    ∀ k : Nat, gpStaircaseGo words k ((k : Int) - 1) =
      ((List.range k).reverse).map (fun i => (gpRegOf i, words[i]?)) := by
  intro k
  induction k with
  | zero => simp [gpStaircaseGo]
  | succ k ih =>
    have h1 : ((k + 1 : Nat) : Int) - 1 = (k : Int) := by push_cast; ring
    rw [h1]
    show (gpRegOf k, memRead words (k : Int)) :: gpStaircaseGo words k ((k : Int) - 1) = _
    rw [memRead_natCast, ih, List.range_succ]
    simp

theorem x64PushLoopGo_eq (words : List Nat) :
    ∀ (len : Nat) (p : Int), x64PushLoopGo words len p =
      ((List.range (len - 6)).map (fun j => memRead words (p - (j : Nat))),
        len - 6, min 6 len, p - ((len - 6 : Nat) : Int)) := by
  intro len
  induction len with
  | zero => intro p; simp [x64PushLoopGo]
  | succ len ih =>
    intro p
    by_cases h : len + 1 ≤ 6
    · have h6 : len + 1 - 6 = 0 := by omega
      have hmin : min 6 (len + 1) = len + 1 := by omega
      simp [x64PushLoopGo, h, h6, hmin]
    · have h6 : len + 1 - 6 = (len - 6) + 1 := by omega
      show (if len + 1 ≤ 6 then ([], 0, len + 1, p)
        else
          let r := x64PushLoopGo words len (p - 1)
          (memRead words p :: r.1, r.2.1 + 1, r.2.2.1, r.2.2.2)) = _
      rw [if_neg h]
      dsimp only
      rw [ih (p - 1)]
      simp only [Prod.mk.injEq]
      refine ⟨?_, by omega, by omega, by omega⟩
      rw [h6, List.range_succ_eq_map, List.map_cons, List.map_map]
      congr 1
      · norm_num
      · apply List.map_congr_left
        intro j _
        simp only [Function.comp_apply]
        congr 1
        push_cast
        ring

theorem spillWords_eq (l : List Nat) :
    (List.range (l.length - 6)).map (fun j => memRead l ((l.length : Int) - 1 - (j : Nat))) =
      ((l.drop 6).reverse).map some := by
  apply List.ext_getElem?
  intro n
  by_cases hn : n < l.length - 6
  · have hidx : ((l.length : Int) - 1 - ((n : Nat) : Int)) = ((l.length - 1 - n : Nat) : Int) := by
      omega
    have hlt : l.length - 1 - n < l.length := by omega
    have hrev : n < (l.drop 6).length := by rw [List.length_drop]; omega
    have hidx2 : 6 + ((l.drop 6).length - 1 - n) = l.length - 1 - n := by
      rw [List.length_drop]; omega
    rw [List.getElem?_map, List.getElem?_map, List.getElem?_range hn,
      List.getElem?_reverse hrev, List.getElem?_drop, hidx2,
      List.getElem?_eq_getElem hlt]
    simp only [Option.map_some']
    rw [hidx, memRead_natCast, List.getElem?_eq_getElem hlt]
  · have h1 : (List.range (l.length - 6)).length ≤ n := by
      rw [List.length_range]; omega
    have h2 : ((l.drop 6).reverse).length ≤ n := by
      rw [List.length_reverse, List.length_drop]; omega
    rw [List.getElem?_eq_none (by rw [List.length_map]; exact h1),
      List.getElem?_eq_none (by rw [List.length_map]; exact h2)]

/-- Claim C3: the x86-64 System V trampoline loads `XMM(F-1)..XMM0`
backwards from the tail of the float queue via a jump table indexed by
`F = fp_queue.length`; pushes the general-queue words beyond index 6
from the last one down toward index 6; loads the first
`min 6 gp_queue.length` words into RDI, RSI, RDX, RCX, R8, R9 (queue
indices 0..5) via a second jump table; calls the target; and reclaims
exactly `8 · max 0 (gp_queue.length − 6)` stack bytes after the call. -/
theorem cdecl_x64_follows_sysv (f : Func) (hf : f.fargs.length ≤ 8) :
    (f.cdeclX64).xmmLoads =
      ((List.range f.fargs.length).reverse).map (fun i => (i, f.fargs[i]?)) ∧
    (f.cdeclX64).stackWords = ((f.args.drop 6).reverse).map some ∧
    (f.cdeclX64).gpLoads =
      ((List.range (min 6 f.args.length)).reverse).map
        (fun i => (gpRegOf i, f.args[i]?)) ∧
    (f.cdeclX64).spReclaim = 8 * (f.args.length - 6) ∧
    (f.cdeclX64).target = f.func := by
  unfold Func.cdeclX64
  rw [x64PushLoopGo_eq]
  dsimp only
  refine ⟨fpStaircaseGo_eq f.fargs f.fargs.length, spillWords_eq f.args, ?_, ?_, rfl⟩
  · have hp : (f.args.length : Int) - 1 - ((f.args.length - 6 : Nat) : Int)
        = ((min 6 f.args.length : Nat) : Int) - 1 := by omega
    rw [hp, gpStaircaseGo_eq]
  · by_cases h : f.args.length - 6 = 0
    · simp [h]
    · simp [h]

theorem cdecl_x64_follows_sysv_witness :
    sampleX64.fargs.length ≤ 8 ∧
    ((sampleX64.cdeclX64).xmmLoads =
      ((List.range sampleX64.fargs.length).reverse).map
        (fun i => (i, sampleX64.fargs[i]?)) ∧
    (sampleX64.cdeclX64).stackWords = ((sampleX64.args.drop 6).reverse).map some ∧
    (sampleX64.cdeclX64).gpLoads =
      ((List.range (min 6 sampleX64.args.length)).reverse).map
        (fun i => (gpRegOf i, sampleX64.args[i]?)) ∧
    (sampleX64.cdeclX64).spReclaim = 8 * (sampleX64.args.length - 6) ∧
    (sampleX64.cdeclX64).target = sampleX64.func) :=
  ⟨by decide, cdecl_x64_follows_sysv sampleX64 (by decide)⟩

/-- Claim C2 (code bug): with an empty general queue (`N = 0`) the i386
cdecl trampoline still pushes one stack word — the do-while push loop
runs its body once with `ebx = 0 - 1 = -1` — and the pushed word is an
out-of-bounds read at queue index `-1` (`none` in the model), while the
post-call cleanup adds `4·0 = 0` to `esp`.  The claim that no word is
pushed and no out-of-bounds element is read for `N = 0` is therefore
false of the code. -/
theorem cdecl_x86_empty_queue_bug :
    (Func.cdeclX86 (Func.from_raw 0)).stackWords = [none] ∧
    (Func.cdeclX86 (Func.from_raw 0)).stackWords.length = 1 ∧
    (Func.cdeclX86 (Func.from_raw 0)).espRestore = 0 := by
  have h : x86PushLoopGo ([] : List Nat) (-1) = [none] := by
    rw [x86PushLoopGo]
    norm_num [memRead]
  refine ⟨?_, ?_, rfl⟩
  · show x86PushLoopGo ([] : List Nat) ((0 : Int) - 1) = [none]
    exact h
  · show (x86PushLoopGo ([] : List Nat) ((0 : Int) - 1)).length = 1
    rw [show ((0 : Int) - 1) = -1 by norm_num, h]
    rfl

/-- Claim C7: for every argument queue the i386 stdcall trampoline
performs exactly the same stack pushes (same words, same order), calls
the same target, and captures the same return registers as the i386
cdecl trampoline; the only difference is the omitted caller-side
stack-pointer restoration (`0` instead of `4·N` bytes). -/
theorem stdcall_eq_cdecl_except_cleanup (f : Func) :
    (f.stdcallX86).stackWords = (f.cdeclX86).stackWords ∧
    (f.stdcallX86).target = (f.cdeclX86).target ∧
    (∀ eax edx st0 : Nat, f.stdcallX86Ret eax edx st0 = f.cdeclX86Ret eax edx st0) ∧
    (f.stdcallX86).espRestore = 0 ∧
    (f.cdeclX86).espRestore = 4 * f.args.length :=
  ⟨rfl, rfl, fun _ _ _ => rfl, rfl, rfl⟩

/-- Claim C5: a non-float argument of at most word size appends exactly
one word to the general queue, equal to the zero-extension of the
argument's raw bit pattern at its own width; no sign extension is
performed (hence `i8 = -1`, i.e. pattern `0xFF`, yields the word `0xFF`,
not `0xFFFFFFFFFFFFFFFF`). -/
theorem push_subword_zero_extends (w : Nat) (f : Func) (s b : Nat)
    (hw : w = 4 ∨ w = 8) (hs : s = 1 ∨ s = 2 ∨ s = 4 ∨ s = 8) (hsw : s ≤ w)
    (hb : b < 2 ^ (8 * s)) :
    Func.push w f (.int s b) = some { f with args := f.args ++ [b] } := by
  rw [push_int_eq, if_pos hsw, if_pos hs, wordOfLeBytes_leBytes,
    ← two_pow_eight_mul, Nat.mod_eq_of_lt hb]

theorem push_subword_zero_extends_witness :
    ((8 : Nat) = 4 ∨ (8 : Nat) = 8) ∧
    ((1 : Nat) = 1 ∨ (1 : Nat) = 2 ∨ (1 : Nat) = 4 ∨ (1 : Nat) = 8) ∧
    (1 : Nat) ≤ 8 ∧ (255 : Nat) < 2 ^ (8 * 1) ∧
    Func.push 8 (Func.from_raw 0) (.int 1 255) =
      some { Func.from_raw 0 with args := (Func.from_raw 0).args ++ [255] } :=
  ⟨by decide, by decide, by decide, by decide,
    push_subword_zero_extends 8 (Func.from_raw 0) 1 255 (by decide) (by decide)
      (by decide) (by decide)⟩

/-- Claim C6: an argument wider than a machine word (a 64-bit float on
a 32-bit host, a 128-bit integer, a 64-bit integer on a 32-bit host)
appends exactly `size / w` contiguous machine words to the general
queue, little-endian, in ascending significance order (low word
first). -/
theorem push_wide_splits_into_words (w : Nat) (f : Func) (a : Arg)
    (hw : w = 4 ∨ w = 8) (h32 : a.isF32 = false) (hgt : w < a.size) (hdvd : w ∣ a.size) :
    Func.push w f a =
      some { f with args := f.args ++
                      (List.range (a.size / w)).map
                        (fun i => a.bits / 2 ^ (8 * (w * i)) % 2 ^ (8 * w)) } := by
  have hw0 : 0 < w := by omega
  obtain ⟨k, hks⟩ := hdvd
  have hdiv : a.size / w = k := by rw [hks, Nat.mul_div_cancel_left _ hw0]
  have hsplit : leBytes a.size a.bits = leBytes (k * w) a.bits := by
    rw [hks, Nat.mul_comm]
  have hwords : readWords w (a.size / w) (leBytes a.size a.bits) =
      (List.range (a.size / w)).map
        (fun i => a.bits / 2 ^ (8 * (w * i)) % 2 ^ (8 * w)) := by
    rw [hdiv, hsplit, readWords_leBytes]
    apply List.map_congr_left
    intro i _
    rw [two_pow_eight_mul, two_pow_eight_mul]
  cases a with
  | f32 b => simp [Arg.isF32] at h32
  | f64 b =>
    simp only [Arg.size] at hgt
    have hw4 : w = 4 := by omega
    subst hw4
    simp only [Arg.size, Arg.bits] at hwords
    rw [push_f64_eq, if_neg (by norm_num), if_neg (by norm_num), hwords]
    rfl
  | int s b =>
    simp only [Arg.size] at hgt
    simp only [Arg.size, Arg.bits] at hwords
    rw [push_int_eq, if_neg (by omega), hwords]
    rfl

theorem push_wide_splits_into_words_witness :
    ((4 : Nat) = 4 ∨ (4 : Nat) = 8) ∧
    (Arg.int 8 1234605616436508552).isF32 = false ∧
    4 < (Arg.int 8 1234605616436508552).size ∧
    4 ∣ (Arg.int 8 1234605616436508552).size ∧
    Func.push 4 (Func.from_raw 0) (.int 8 1234605616436508552) =
      some { Func.from_raw 0 with
               args := (Func.from_raw 0).args ++
                         (List.range ((Arg.int 8 1234605616436508552).size / 4)).map
                           (fun i => (Arg.int 8 1234605616436508552).bits
                             / 2 ^ (8 * (4 * i)) % 2 ^ (8 * 4)) } :=
  ⟨by decide, by decide, by decide, by decide,
    push_wide_splits_into_words 4 (Func.from_raw 0) (.int 8 1234605616436508552)
      (by decide) (by decide) (by decide) (by decide)⟩

/-- Claim C4: across any sequence of pushes starting from a state
satisfying the bound, the float queue never exceeds 8 entries; and on a
64-bit host a float pushed once the float queue already holds 8 entries
is appended to the general queue as the 8-byte bit pattern of its
64-bit float value (an `f32` is widened first). -/
theorem fp_queue_bound_and_spill (w : Nat) (f : Func) (l : List Arg) (g : Func)
    (h0 : f.fargs.length ≤ 8) (h1 : Func.pushMany w f l = some g) :
    g.fargs.length ≤ 8 ∧
    (∀ (f8 : Func) (b : Nat), f8.fargs.length = 8 →
      Func.push 8 f8 (.f32 b) =
        some { f8 with args := f8.args ++ [f32ToF64Bits b] } ∧
      (b < 2 ^ 64 →
        Func.push 8 f8 (.f64 b) = some { f8 with args := f8.args ++ [b] })) := by
  refine ⟨pushMany_fargs_le w l f g h0 h1, ?_⟩
  intro f8 b h8
  constructor
  · rw [push_f32_eq, if_neg (by simp [h8]), push_f64_eq, if_neg (by simp [h8]),
      if_pos (le_refl 8), wordOfLeBytes_leBytes,
      show (256 : Nat) ^ 8 = 2 ^ 64 by norm_num,
      Nat.mod_eq_of_lt (f32ToF64Bits_lt b)]
  · intro hb
    rw [push_f64_eq, if_neg (by simp [h8]), if_pos (le_refl 8), wordOfLeBytes_leBytes,
      show (256 : Nat) ^ 8 = 2 ^ 64 by norm_num, Nat.mod_eq_of_lt hb]

theorem fp_queue_bound_and_spill_witness :
    (Func.from_raw 0).fargs.length ≤ 8 ∧
    Func.pushMany 8 (Func.from_raw 0) [.f64 3, .int 4 9] =
      some { func := 0, args := [9], fargs := [3], ret_low := 0, ret_high := 0,
             ret_float := 0 } ∧
    (({ func := 0, args := [9], fargs := [3], ret_low := 0, ret_high := 0,
        ret_float := 0 } : Func).fargs.length ≤ 8 ∧
    (∀ (f8 : Func) (b : Nat), f8.fargs.length = 8 →
      Func.push 8 f8 (.f32 b) =
        some { f8 with args := f8.args ++ [f32ToF64Bits b] } ∧
      (b < 2 ^ 64 →
        Func.push 8 f8 (.f64 b) = some { f8 with args := f8.args ++ [b] }))) := by
  have h1 : Func.pushMany 8 (Func.from_raw 0) [.f64 3, .int 4 9] =
      some { func := 0, args := [9], fargs := [3], ret_low := 0, ret_high := 0,
             ret_float := 0 } := by
    norm_num [Func.pushMany, push_f64_eq, push_int_eq, Func.from_raw,
      wordOfLeBytes, leBytes]
  exact ⟨by decide, h1,
    fp_queue_bound_and_spill 8 (Func.from_raw 0) [.f64 3, .int 4 9] _ (by decide) h1⟩

/-- Claim C10: `push` never changes the target pointer or the three
return slots, and only appends to the two queues: every previously
stored queue element keeps its value and position (the old queue is a
prefix of the new one). -/
theorem push_frame_conditions (w : Nat) (f : Func) (a : Arg) (g : Func)
    (h : Func.push w f a = some g) :
    g.func = f.func ∧ g.ret_low = f.ret_low ∧ g.ret_high = f.ret_high ∧
    g.ret_float = f.ret_float ∧
    (∃ t, g.args = f.args ++ t) ∧ (∃ t, g.fargs = f.fargs ++ t) := by
  rcases push_cases w f a g h with ⟨x, rfl, -⟩ | ⟨t, rfl⟩
  · exact ⟨rfl, rfl, rfl, rfl, ⟨[], by simp⟩, ⟨[x], rfl⟩⟩
  · exact ⟨rfl, rfl, rfl, rfl, ⟨t, rfl⟩, ⟨[], by simp⟩⟩

theorem push_frame_conditions_witness :
    Func.push 8 (Func.from_raw 3) (.int 1 5) = some frameSample ∧
    (frameSample.func = (Func.from_raw 3).func ∧
    frameSample.ret_low = (Func.from_raw 3).ret_low ∧
    frameSample.ret_high = (Func.from_raw 3).ret_high ∧
    frameSample.ret_float = (Func.from_raw 3).ret_float ∧
    (∃ t, frameSample.args = (Func.from_raw 3).args ++ t) ∧
    (∃ t, frameSample.fargs = (Func.from_raw 3).fargs ++ t)) := by
  have h : Func.push 8 (Func.from_raw 3) (.int 1 5) = some frameSample := by
    norm_num [push_int_eq, Func.from_raw, frameSample, wordOfLeBytes, leBytes]
  exact ⟨h, push_frame_conditions 8 (Func.from_raw 3) (.int 1 5) frameSample h⟩

/-- Claim C8: `Func::new` fails (with an I/O-category error) exactly
when the loader fails to open the library or to resolve the symbol; on
success it returns a builder holding the resolved code address; the
from-address constructor `Func::from_raw` never fails and performs no
validation. -/
theorem new_error_iff_loader_error (o : Except IoError Library)
    (g : Library → Except IoError Nat) :
    ((∃ e, Func.new o g = .error e) ↔
      ((∃ e, o = .error e) ∨ (∃ lib e, o = .ok lib ∧ g lib = .error e))) ∧
    (∀ lib addr, o = .ok lib → g lib = .ok addr →
      Func.new o g = .ok { func := addr, args := [], fargs := [], ret_low := 0,
                           ret_high := 0, ret_float := 0 }) ∧
    (∀ p : Nat, Func.from_raw p = { func := p, args := [], fargs := [], ret_low := 0,
                                    ret_high := 0, ret_float := 0 }) := by
  refine ⟨?_, ?_, fun p => rfl⟩
  · cases o with
    | error e => simp [Func.new]
    | ok lib =>
      cases hg : g lib with
      | error e => simp [Func.new, hg]
      | ok addr => simp [Func.new, hg]
  · intro lib addr ho hga
    subst ho
    simp [Func.new, hga]

theorem new_error_iff_loader_error_witness :
    Func.new (.ok ⟨0⟩) (fun _ => .ok 5) =
      .ok { func := 5, args := [], fargs := [], ret_low := 0, ret_high := 0,
            ret_float := 0 } :=
  (new_error_iff_loader_error (.ok ⟨0⟩) (fun _ => .ok 5)).2.1 ⟨0⟩ 5 rfl rfl

/-- Claim C9: every builder produced by either constructor —
`Func::new` on success, or `Func::from_raw` — starts with both argument
queues empty and all three return slots zero. -/
theorem constructors_zero_init :
    (∀ (o : Except IoError Library) (g : Library → Except IoError Nat) (f : Func),
      Func.new o g = .ok f →
      f.args = [] ∧ f.fargs = [] ∧ f.ret_low = 0 ∧ f.ret_high = 0 ∧ f.ret_float = 0) ∧
    (∀ p : Nat,
      (Func.from_raw p).args = [] ∧ (Func.from_raw p).fargs = [] ∧
      (Func.from_raw p).ret_low = 0 ∧ (Func.from_raw p).ret_high = 0 ∧
      (Func.from_raw p).ret_float = 0) := by
  refine ⟨?_, fun p => ⟨rfl, rfl, rfl, rfl, rfl⟩⟩
  intro o g f h
  cases o with
  | error e => simp [Func.new] at h
  | ok lib =>
    cases hg : g lib with
    | error e => simp [Func.new, hg] at h
    | ok addr =>
      simp [Func.new, hg] at h
      rw [← h]
      exact ⟨rfl, rfl, rfl, rfl, rfl⟩

theorem constructors_zero_init_witness :
    Func.new (.ok ⟨1⟩) (fun _ => .ok 6) =
      .ok { func := 6, args := [], fargs := [], ret_low := 0, ret_high := 0,
            ret_float := 0 } ∧
    (({ func := 6, args := [], fargs := [], ret_low := 0, ret_high := 0,
        ret_float := 0 } : Func).args = [] ∧
    ({ func := 6, args := [], fargs := [], ret_low := 0, ret_high := 0,
       ret_float := 0 } : Func).fargs = [] ∧
    ({ func := 6, args := [], fargs := [], ret_low := 0, ret_high := 0,
       ret_float := 0 } : Func).ret_low = 0 ∧
    ({ func := 6, args := [], fargs := [], ret_low := 0, ret_high := 0,
       ret_float := 0 } : Func).ret_high = 0 ∧
    ({ func := 6, args := [], fargs := [], ret_low := 0, ret_high := 0,
       ret_float := 0 } : Func).ret_float = 0) :=
  ⟨rfl, constructors_zero_init.1 (.ok ⟨1⟩) (fun _ => .ok 6) _ rfl⟩

/-- Claim C1 (accessor family modelled from the spec; src/src/lib.rs
itself declares only `ret_usize` and `ret_f64`, which the tests' wider
`ret_as_*` family extends): once the call has returned, every typed
return accessor is a total pure function of the captured slots — except
the 128-bit accessors on a 32-bit host, which fail deterministically —
the word-width unsigned accessor returns `ret_lo` directly, and the
64-bit float accessor returns `ret_fp` directly. -/
theorem ret_accessor_family_total :
    (∀ f : Func, f.ret_as_usize = f.ret_low ∧ f.ret_usize = f.ret_low) ∧
    (∀ f : Func, f.ret_as_f64 = f.ret_float ∧ f.ret_f64 = f.ret_float) ∧
    (∀ f : Func,
      f.ret_as_u8 = f.ret_low % 2 ^ 8 ∧ f.ret_as_u16 = f.ret_low % 2 ^ 16 ∧
      f.ret_as_u32 = f.ret_low % 2 ^ 32 ∧
      f.ret_as_i8 = asSigned 8 f.ret_low ∧ f.ret_as_i16 = asSigned 16 f.ret_low ∧
      f.ret_as_i32 = asSigned 32 f.ret_low ∧
      f.ret_as_u64 8 = f.ret_low ∧
      f.ret_as_u64 4 = Nat.lor (f.ret_high <<< 32) f.ret_low ∧
      f.ret_as_i64 8 = asSigned 64 f.ret_low ∧
      f.ret_as_i64 4 = asSigned 64 (Nat.lor (f.ret_high <<< 32) f.ret_low) ∧
      f.ret_as_isize 8 = asSigned 64 f.ret_low ∧
      f.ret_as_isize 4 = asSigned 32 f.ret_low ∧
      f.ret_as_f32 = f64ToF32Bits f.ret_float) ∧
    (∀ f : Func,
      f.ret_as_u128 8 = some (Nat.lor (f.ret_high <<< 64) f.ret_low) ∧
      (f.ret_as_i128 8).isSome = true ∧
      f.ret_as_u128 4 = none ∧ f.ret_as_i128 4 = none) := by
  refine ⟨fun f => ⟨rfl, rfl⟩, fun f => ⟨rfl, rfl⟩,
    fun f => ⟨rfl, rfl, rfl, rfl, rfl, rfl, ?_, ?_, ?_, ?_, ?_, ?_, rfl⟩,
    fun f => ⟨?_, ?_, ?_, ?_⟩⟩
  · simp [Func.ret_as_u64]
  · simp [Func.ret_as_u64]
  · simp [Func.ret_as_i64, Func.ret_as_u64]
  · simp [Func.ret_as_i64, Func.ret_as_u64]
  · simp [Func.ret_as_isize]
  · simp [Func.ret_as_isize]
  · simp [Func.ret_as_u128]
  · simp [Func.ret_as_i128, Func.ret_as_u128]
  · simp [Func.ret_as_u128]
  · simp [Func.ret_as_i128, Func.ret_as_u128]
